import Mathlib

/-!
Shallow embedding of the field-value generation engine
(`src/emu/plugins/netflow/engine.go`): the unsigned-integer generator
(`UIntEngine`), the histogram generator (`HistogramEngine`) and its entry
variants.  Go machine integers are modelled as `Nat` with explicit
reduction modulo `2^w` wherever the Go arithmetic can wrap; Go `error`
returns become `Option`/`Except`; Go runtime panics (division by zero,
negative `make` length, index out of range) are modelled as an explicit
`panicked` outcome distinct from a returned error.  Randomness
(`rand.Uint64`, `rand.Uint32`, `rand.Intn`, the weighted sampler's
`Generate`) is modelled by passing the drawn value / sampled index as an
explicit argument.
-/

namespace Netflow

/-- Modulus of the Go `uint64` type. -/
def U64 : Nat := 2 ^ 64

/-- Modulus of the Go `uint32` type. -/
def U32 : Nat := 2 ^ 32

/-- Go `uint64` addition (wraps modulo `2^64`). -/
def add64 (a b : Nat) : Nat := (a + b) % U64

/-- Go `uint64` subtraction (wraps modulo `2^64`); both arguments are
assumed to be below `2^64`, as Go's type system guarantees. -/
def sub64 (a b : Nat) : Nat := (a + U64 - b) % U64

/-- Go `uint32` addition (wraps modulo `2^32`). -/
def add32 (a b : Nat) : Nat := (a + b) % U32

/-- Parameters of the `UIntEngine`, mirroring Go `UIntEngineParams`:
size in bytes, offset in the packet, operation string (one of
"inc"/"dec"/"rand"), step, domain bounds and initial value. -/
structure UIntEngineParams where
  size : Nat
  offset : Nat
  op : String
  step : Nat
  minValue : Nat
  maxValue : Nat
  initValue : Nat
  deriving DecidableEq

/-- The errors the engine code can return, one constructor per
`fmt.Errorf`/`errors.New` site in `engine.go`. -/
inductive GoErr where
  | minGtMax (min max : Nat)
  | initOutOfRange (init min max : Nat)
  | invalidSize (size : Nat)
  | maxTooBig (max size : Nat)
  | unsupportedOp (op : String)
  | sliceShort (want got : Nat)
  | badWidth
  | unrecognizedOp
  | valueShort (want got : Nat)
  | copyShort (want got : Nat)
  | rangeMaxLtMin (max min : Nat)
  | runeRangeMaxLtMin (max min : Int)
  | emptyList (typeName : String)
  deriving DecidableEq

/-- Kinds of Go runtime panic the embedded code can hit. -/
inductive PanicKind where
  | divideByZero
  | makesliceNeg
  | indexOutOfRange
  | intnNonPositive
  deriving DecidableEq

/-- Outcome of a Go call that can return a value, return an error, or
abort the process with a runtime panic. -/
inductive Outcome (α : Type) where
  | ok : α → Outcome α
  | error : GoErr → Outcome α
  | panicked : PanicKind → Outcome α
  deriving DecidableEq

/-- State of the unsigned-integer generator, mirroring Go `UIntEngine`:
the (possibly step-adjusted) parameters, the current value and the domain
length. -/
structure UIntEngine where
  par : UIntEngineParams
  currValue : Nat
  domainLen : Nat
  deriving DecidableEq

/-- Go `maxUInt64`: maximum of two unsigned integers. -/
def maxUInt64 (a b : Nat) : Nat := if a ≥ b then a else b

/-- Go `findValue` over a slice: index of the first occurrence of `val`,
or nothing when absent. -/
def findValueAux : List Nat → Nat → Nat → Option Nat
  | [], _, _ => none
  | x :: xs, val, i => if x = val then some i else findValueAux xs val (i + 1)

/-- Go `findValue(arr, val)` returning the found index. -/
def findValue (arr : List Nat) (val : Nat) : Option Nat := findValueAux arr val 0

/-- The admissible byte widths, Go's `sizes` slice. -/
def sizes : List Nat := [1, 2, 4, 8]

/-- The largest value representable per width, Go's `maxPossible` slice:
MaxUint8, MaxUint16, MaxUint32, MaxUint64. -/
def maxPossible : List Nat := [2 ^ 8 - 1, 2 ^ 16 - 1, 2 ^ 32 - 1, 2 ^ 64 - 1]

/-- Go `UIntEngine.validateParams`: each failing check overwrites `err`
in order; the result is the last error assigned, or nothing when every
check passes. -/
def validateParams (params : UIntEngineParams) : Option GoErr :=
  let e0 : Option GoErr := none
  let e1 := if params.minValue > params.maxValue then
      some (GoErr.minGtMax params.minValue params.maxValue) else e0
  let e2 := if params.initValue ≠ 0 ∧
      (params.initValue < params.minValue ∨ params.initValue > params.maxValue) then
      some (GoErr.initOutOfRange params.initValue params.minValue params.maxValue) else e1
  let e3 := match findValue sizes params.size with
    | none => some (GoErr.invalidSize params.size)
    | some i =>
      if params.maxValue > (maxPossible.getD i 0) then
        some (GoErr.maxTooBig params.maxValue params.size) else e2
  let e4 := if params.op ≠ "inc" ∧ params.op ≠ "dec" ∧ params.op ≠ "rand" then
      some (GoErr.unsupportedOp params.op) else e3
  e4

/-- Go `NewUIntEngine`: validate, compute `domainLen = max - min + 1`
(uint64 wrap; `0` is replaced by `MaxUint64`), reduce `step` modulo
`domainLen` when it exceeds it, and start at `max(minValue, initValue)`. -/
def NewUIntEngine (params : UIntEngineParams) : Except GoErr UIntEngine :=
  match validateParams params with
  | some e => Except.error e
  | none =>
    let domainLen := add64 (sub64 params.maxValue params.minValue) 1
    let domainLen := if domainLen = 0 then U64 - 1 else domainLen
    let step := if params.step > domainLen then params.step % domainLen else params.step
    Except.ok { par := { params with step := step },
                currValue := maxUInt64 params.minValue params.initValue,
                domainLen := domainLen }

/-- Go `UIntEngine.IncValue`: add `step`, wrapping past `maxValue` to
`minValue` with the restart consuming one unit. -/
def IncValue (o : UIntEngine) : UIntEngine :=
  let left := sub64 o.par.maxValue o.currValue
  if o.par.step ≤ left then
    { o with currValue := add64 o.currValue o.par.step }
  else
    { o with currValue := add64 o.par.minValue (sub64 (sub64 o.par.step left) 1) }

/-- Go `UIntEngine.DecValue`: subtract `step`, wrapping past `minValue`
to `maxValue` with the restart consuming one unit. -/
def DecValue (o : UIntEngine) : UIntEngine :=
  let left := sub64 o.currValue o.par.minValue
  if o.par.step ≤ left then
    { o with currValue := sub64 o.currValue o.par.step }
  else
    { o with currValue := sub64 o.par.maxValue (sub64 (sub64 o.par.step left) 1) }

/-- Go `UIntEngine.RandValue` with the `rand.Uint64()` draw `g` passed
explicitly: the current value becomes `minValue + (g % domainLen)`. -/
def RandValue (o : UIntEngine) (g : Nat) : UIntEngine :=
  { o with currValue := add64 o.par.minValue (g % o.domainLen) }

/-- Go `UIntEngine.PerformOp`: dispatch on the operation string. -/
def PerformOp (o : UIntEngine) (g : Nat) : Except GoErr UIntEngine :=
  if o.par.op = "inc" then Except.ok (IncValue o)
  else if o.par.op = "dec" then Except.ok (DecValue o)
  else if o.par.op = "rand" then Except.ok (RandValue o g)
  else Except.error GoErr.unrecognizedOp

/-- Big-endian byte serialization: the `n` low-order bytes of `v`, most
significant first (what `binary.BigEndian.PutUintN` writes after Go's
narrowing conversion). -/
def bytesBE : Nat → Nat → List Nat
  | 0, _ => []
  | n + 1, v => (v / 2 ^ (8 * n)) % 2 ^ 8 :: bytesBE n v

/-- Result of one `UIntEngine.Update` call: the returned error (if any),
the engine state after the call, and the buffer after the call. -/
structure UpdateResult where
  err : Option GoErr
  engine : UIntEngine
  buf : List Nat
  deriving DecidableEq

/-- Go `UIntEngine.Update` with the random draw `g` passed explicitly:
reject a short buffer, write `currValue` big-endian over the first
`size` bytes, then perform the configured operation to prepare the next
value. -/
def UIntEngine.Update (o : UIntEngine) (g : Nat) (b : List Nat) : UpdateResult :=
  if b.length < o.par.size then
    { err := some (GoErr.sliceShort o.par.size b.length), engine := o, buf := b }
  else if o.par.size = 1 ∨ o.par.size = 2 ∨ o.par.size = 4 ∨ o.par.size = 8 then
    let b2 := bytesBE o.par.size o.currValue ++ b.drop o.par.size
    match PerformOp o g with
    | Except.error e => { err := some e, engine := o, buf := b2 }
    | Except.ok o2 => { err := none, engine := o2, buf := b2 }
  else
    { err := some GoErr.badWidth, engine := o, buf := b }

/-- Go `utf8.RuneLen`: byte length of the UTF-8 encoding of a rune, or
`-1` for a value that is not a valid Unicode scalar (negative, a UTF-16
surrogate, or above `0x10FFFF`). -/
def runeLen (r : Int) : Int :=
  if r < 0 then -1
  else if r ≤ 0x7F then 1
  else if r ≤ 0x7FF then 2
  else if 0xD800 ≤ r ∧ r ≤ 0xDFFF then -1
  else if r ≤ 0xFFFF then 3
  else if r ≤ 0x10FFFF then 4
  else -1

/-- Go `utf8.EncodeRune` restricted to valid scalar values: the standard
UTF-8 byte sequence for the code point `c`. -/
def utf8Encode (c : Nat) : List Nat :=
  if c ≤ 0x7F then [c]
  else if c ≤ 0x7FF then [0xC0 + c / 64, 0x80 + c % 64]
  else if c ≤ 0xFFFF then [0xE0 + c / 4096, 0x80 + (c / 64) % 64, 0x80 + c % 64]
  else [0xF0 + c / 262144, 0x80 + (c / 4096) % 64, 0x80 + (c / 64) % 64, 0x80 + c % 64]

/-- The closed set of histogram entry variants, each carrying its
parameters and its selection probability (`prob`), mirroring the six Go
`Histogram*Entry` structs. -/
inductive HistogramEntry where
  | uint32Fixed (v : Nat) (prob : Nat)
  | uint32Range (min max : Nat) (prob : Nat)
  | uint32List (list : List Nat) (prob : Nat)
  | runeFixed (r : Int) (prob : Nat)
  | runeRange (min max : Int) (prob : Nat)
  | runeList (list : List Int) (prob : Nat)
  deriving DecidableEq

/-- Go `GetProb` of each entry variant. -/
def HistogramEntry.GetProb : HistogramEntry → Nat
  | .uint32Fixed _ p => p
  | .uint32Range _ _ p => p
  | .uint32List _ p => p
  | .runeFixed _ p => p
  | .runeRange _ _ p => p
  | .runeList _ p => p

/-- Go `HistogramUInt32RangeEntry.GetValue` with the `rand.Uint32()`
draw passed explicitly.  After the `max < min` guard the divisor
`max - min + 1` is computed in `uint32` arithmetic; when it wraps to `0`
(full 32-bit range) Go's `%` panics with a division by zero. -/
def uint32RangeGetValue (min max draw : Nat) : Outcome (List Nat) :=
  if max < min then Outcome.error (GoErr.rangeMaxLtMin max min)
  else
    let d := (max - min + 1) % U32
    if d = 0 then Outcome.panicked PanicKind.divideByZero
    else Outcome.ok (bytesBE 4 (add32 min (draw % U32 % d)))

/-- Go `HistogramUInt32ListEntry.GetValue` with the `rand.Intn` result
(an index below the list length) passed explicitly. -/
def uint32ListGetValue (list : List Nat) (idx : Nat) : Outcome (List Nat) :=
  if list.length = 0 then Outcome.error (GoErr.emptyList "HistogramUInt32ListEntry")
  else Outcome.ok (bytesBE 4 (list.getD (idx % list.length) 0))

/-- Go `HistogramRuneEntry.GetValue`: allocates `make([]byte,
utf8.RuneLen(r))`, which panics when `RuneLen` is `-1` for an
unencodable rune, then encodes `r`. -/
def runeGetValue (r : Int) : Outcome (List Nat) :=
  if runeLen r < 0 then Outcome.panicked PanicKind.makesliceNeg
  else Outcome.ok (utf8Encode r.toNat)

/-- Go `HistogramRuneRangeEntry.GetValue` with the `rand.Intn` draw
passed explicitly: guard `max < min`, pick `min + Intn(max - min + 1)`
(`Intn` panics when its argument is not positive), then encode like the
fixed-rune entry. -/
def runeRangeGetValue (min max : Int) (draw : Nat) : Outcome (List Nat) :=
  if max < min then Outcome.error (GoErr.runeRangeMaxLtMin max min)
  else
    let n := max - min + 1
    if n ≤ 0 then Outcome.panicked PanicKind.intnNonPositive
    else
      let r := min + Int.ofNat (draw % n.toNat)
      if runeLen r < 0 then Outcome.panicked PanicKind.makesliceNeg
      else Outcome.ok (utf8Encode r.toNat)

/-- Go `HistogramRuneListEntry.GetValue` with the `rand.Intn` result
passed explicitly. -/
def runeListGetValue (list : List Int) (idx : Nat) : Outcome (List Nat) :=
  if list.length = 0 then Outcome.error (GoErr.emptyList "HistogramRuneListEntry")
  else
    let r := list.getD (idx % list.length) 0
    if runeLen r < 0 then Outcome.panicked PanicKind.makesliceNeg
    else Outcome.ok (utf8Encode r.toNat)

/-- Go `GetValue` dispatch over the entry variants; `draw` stands for
the per-call random draw consumed by the random variants. -/
def HistogramEntry.GetValue : HistogramEntry → Nat → Outcome (List Nat)
  | .uint32Fixed v _, _ => Outcome.ok (bytesBE 4 v)
  | .uint32Range mn mx _, draw => uint32RangeGetValue mn mx draw
  | .uint32List l _, draw => uint32ListGetValue l draw
  | .runeFixed r _, _ => runeGetValue r
  | .runeRange mn mx _, draw => runeRangeGetValue mn mx draw
  | .runeList l _, draw => runeListGetValue l draw

/-- Parameters of the histogram engine, mirroring Go
`HistogramEngineParams`. -/
structure HistogramEngineParams where
  size : Nat
  offset : Nat
  entries : List HistogramEntry
  deriving DecidableEq

/-- State of the histogram engine, mirroring Go `HistogramEngine`; the
weighted sampler (`NonUniformRandGen`) lives outside `src/` and is
replaced, per its stated contract, by passing the sampled index to
`Update` explicitly, so only the distribution vector is kept. -/
structure HistogramEngine where
  par : HistogramEngineParams
  distributions : List Nat
  deriving DecidableEq

/-- Go `HistogramEngine.buildDistributionSlice`: the probabilities of
the entries, in order. -/
def buildDistributionSlice (entries : List HistogramEntry) : List Nat :=
  entries.map HistogramEntry.GetProb

/-- Go `HistogramEngine.Update` with the sampled index `i` and the
entry's random draw passed explicitly: reject a short destination
buffer, look the sampled entry up, obtain its value, require it to be
long enough, and copy exactly `size` bytes into the buffer.  Returns the
call's outcome together with the buffer after the call. -/
def HistogramEngine.Update (o : HistogramEngine) (i draw : Nat) (b : List Nat) :
    Outcome Unit × List Nat :=
  if b.length < o.par.size then
    (Outcome.error (GoErr.sliceShort o.par.size b.length), b)
  else
    match o.par.entries.get? i with
    | none => (Outcome.panicked PanicKind.indexOutOfRange, b)
    | some entry =>
      match entry.GetValue draw with
      | Outcome.error e => (Outcome.error e, b)
      | Outcome.panicked p => (Outcome.panicked p, b)
      | Outcome.ok newValueBytes =>
        if newValueBytes.length < o.par.size then
          (Outcome.error (GoErr.valueShort o.par.size newValueBytes.length), b)
        else
          let b2 := newValueBytes.take o.par.size ++ b.drop o.par.size
          let copiedSize := min (min o.par.size b.length) (min o.par.size newValueBytes.length)
          if copiedSize ≠ o.par.size then
            (Outcome.error (GoErr.copyShort o.par.size copiedSize), b2)
          else
            (Outcome.ok (), b2)

/-!  Helper lemmas about the wrapped arithmetic and the validation. -/

theorem U64_eq : U64 = 18446744073709551616 := by norm_num [U64]

theorem U32_eq : U32 = 4294967296 := by norm_num [U32]

theorem sub64_eq_of_le (a b : Nat) (hba : b ≤ a) (ha : a < U64) : sub64 a b = a - b := by
  unfold sub64
  have h : a + U64 - b = (a - b) + U64 := by omega
  rw [h, Nat.add_mod_right, Nat.mod_eq_of_lt (by omega)]

theorem add64_eq_of_lt (a b : Nat) (h : a + b < U64) : add64 a b = a + b := by
  unfold add64
  exact Nat.mod_eq_of_lt h

/-- Largest value representable in a given byte width, as the spec states
it (used to compare the code's validation against the spec's wording). -/
def maxRep (s : Nat) : Nat :=
  if s = 1 then 2 ^ 8 - 1 else if s = 2 then 2 ^ 16 - 1
  else if s = 4 then 2 ^ 32 - 1 else 2 ^ 64 - 1

theorem findValue_sizes (s : Nat) :
    findValue sizes s =
      if s = 1 then some 0 else if s = 2 then some 1
      else if s = 4 then some 2 else if s = 8 then some 3 else none := by
  unfold findValue sizes
  by_cases h1 : s = 1 <;> by_cases h2 : s = 2 <;> by_cases h4 : s = 4 <;> by_cases h8 : s = 8 <;>
    simp_all [findValueAux, Ne.symm]

theorem validateParams_none_iff (p : UIntEngineParams) :
    validateParams p = none ↔
      (p.minValue ≤ p.maxValue ∧
       (p.size = 1 ∨ p.size = 2 ∨ p.size = 4 ∨ p.size = 8) ∧
       p.maxValue ≤ maxRep p.size ∧
       (p.op = "inc" ∨ p.op = "dec" ∨ p.op = "rand") ∧
       (p.initValue = 0 ∨ (p.minValue ≤ p.initValue ∧ p.initValue ≤ p.maxValue))) := by
  unfold validateParams
  rw [findValue_sizes]
  by_cases h1 : p.size = 1 <;> by_cases h2 : p.size = 2 <;>
    by_cases h4 : p.size = 4 <;> by_cases h8 : p.size = 8 <;>
    simp_all [maxRep, maxPossible] <;>
    split_ifs <;>
    simp_all <;>
    first
      | omega
      | tauto

/-- The domain length the construction is meant to produce: the exact
`max - min + 1`, except in the full-width case where the code stores
`MaxUint64` instead. -/
def dSpec (min max : Nat) : Nat :=
  if min = 0 ∧ max = U64 - 1 then U64 - 1 else max - min + 1

/-- Invariant maintained by every validly constructed engine: the
current value lies in the domain, the bounds fit in a `uint64`, the step
does not exceed the stored domain length, and the stored domain length
is the one the construction computes. -/
def Inv (e : UIntEngine) : Prop :=
  e.par.minValue ≤ e.currValue ∧ e.currValue ≤ e.par.maxValue ∧
  e.par.maxValue < U64 ∧ e.par.step ≤ e.domainLen ∧
  e.domainLen = dSpec e.par.minValue e.par.maxValue

theorem maxRep_le (s : Nat) : maxRep s ≤ U64 - 1 := by
  unfold maxRep
  split_ifs <;> norm_num [U64]

theorem dl_compute (mn mx : Nat) (hmm : mn ≤ mx) (hmx : mx < U64) :
    (if add64 (sub64 mx mn) 1 = 0 then U64 - 1 else add64 (sub64 mx mn) 1) = dSpec mn mx := by
  have hU := U64_eq
  rw [sub64_eq_of_le _ _ hmm hmx]
  unfold add64 dSpec
  by_cases hc : mn = 0 ∧ mx = U64 - 1
  · rw [if_pos hc]
    obtain ⟨h0, hM⟩ := hc
    subst h0
    subst hM
    have h1 : (U64 - 1 - 0 + 1) % U64 = 0 := by
      rw [hU]
    rw [h1, if_pos rfl]
  · rw [if_neg hc]
    have hlt : mx - mn + 1 < U64 := by omega
    rw [Nat.mod_eq_of_lt hlt, if_neg (by omega)]

theorem dSpec_facts (mn mx : Nat) (hmm : mn ≤ mx) (hmx : mx < U64) :
    1 ≤ dSpec mn mx ∧ dSpec mn mx ≤ U64 - 1 ∧ dSpec mn mx - 1 ≤ mx - mn := by
  have hU := U64_eq
  unfold dSpec
  split_ifs with hc <;> omega

theorem NewUIntEngine_ok_inv (p : UIntEngineParams) (e : UIntEngine)
    (h : NewUIntEngine p = Except.ok e) : Inv e ∧ e.par.minValue = p.minValue ∧
      e.par.maxValue = p.maxValue ∧ e.par.op = p.op ∧ e.par.size = p.size ∧
      e.par.offset = p.offset ∧ e.par.initValue = p.initValue := by
  unfold NewUIntEngine at h
  cases hv : validateParams p with
  | some er => rw [hv] at h; exact absurd h (by simp)
  | none =>
    rw [hv] at h
    simp only [Except.ok.injEq] at h
    obtain ⟨hminmax, - , hrep, -, hinit⟩ := (validateParams_none_iff p).mp hv
    have hU : U64 = 18446744073709551616 := U64_eq
    have hmax : p.maxValue < U64 := by
      have h1 := maxRep_le p.size
      omega
    have hdc := dl_compute p.minValue p.maxValue hminmax hmax
    have hds := dSpec_facts p.minValue p.maxValue hminmax hmax
    subst h
    unfold Inv
    dsimp only
    rw [hdc]
    refine ⟨⟨?_, ?_, hmax, ?_, rfl⟩, rfl, rfl, rfl, rfl, rfl, rfl⟩
    · unfold maxUInt64
      split_ifs <;> omega
    · unfold maxUInt64
      split_ifs <;> omega
    · split_ifs with hgt
      · exact le_of_lt (Nat.mod_lt _ (by omega))
      · omega

theorem Inv_mk_iff (par : UIntEngineParams) (curr dl : Nat) :
    Inv ⟨par, curr, dl⟩ ↔ (par.minValue ≤ curr ∧ curr ≤ par.maxValue ∧
      par.maxValue < U64 ∧ par.step ≤ dl ∧ dl = dSpec par.minValue par.maxValue) := Iff.rfl

theorem IncValue_par (e : UIntEngine) :
    (IncValue e).par = e.par ∧ (IncValue e).domainLen = e.domainLen := by
  simp only [IncValue]
  split_ifs <;> exact ⟨rfl, rfl⟩

theorem DecValue_par (e : UIntEngine) :
    (DecValue e).par = e.par ∧ (DecValue e).domainLen = e.domainLen := by
  simp only [DecValue]
  split_ifs <;> exact ⟨rfl, rfl⟩

theorem IncValue_inv (e : UIntEngine) (h : Inv e) : Inv (IncValue e) := by
  obtain ⟨hmin, hmaxc, hmax, hstep, hdl⟩ := h
  have hU := U64_eq
  have hminmax : e.par.minValue ≤ e.par.maxValue := le_trans hmin hmaxc
  have hds := dSpec_facts e.par.minValue e.par.maxValue hminmax hmax
  rw [← hdl] at hds
  have hleft : sub64 e.par.maxValue e.currValue = e.par.maxValue - e.currValue :=
    sub64_eq_of_le _ _ hmaxc hmax
  simp only [IncValue]
  rw [hleft]
  split_ifs with hb
  · rw [Inv_mk_iff]
    refine ⟨?_, ?_, hmax, hstep, hdl⟩ <;>
      rw [add64_eq_of_lt _ _ (by omega)] <;> omega
  · have h1 : sub64 e.par.step (e.par.maxValue - e.currValue) =
        e.par.step - (e.par.maxValue - e.currValue) := sub64_eq_of_le _ _ (by omega) (by omega)
    have h2 : sub64 (e.par.step - (e.par.maxValue - e.currValue)) 1 =
        e.par.step - (e.par.maxValue - e.currValue) - 1 := sub64_eq_of_le _ _ (by omega) (by omega)
    rw [Inv_mk_iff]
    refine ⟨?_, ?_, hmax, hstep, hdl⟩ <;>
      rw [h1, h2, add64_eq_of_lt _ _ (by omega)] <;> omega

theorem DecValue_inv (e : UIntEngine) (h : Inv e) : Inv (DecValue e) := by
  obtain ⟨hmin, hmaxc, hmax, hstep, hdl⟩ := h
  have hU := U64_eq
  have hminmax : e.par.minValue ≤ e.par.maxValue := le_trans hmin hmaxc
  have hds := dSpec_facts e.par.minValue e.par.maxValue hminmax hmax
  rw [← hdl] at hds
  have hleft : sub64 e.currValue e.par.minValue = e.currValue - e.par.minValue :=
    sub64_eq_of_le _ _ hmin (by omega)
  simp only [DecValue]
  rw [hleft]
  split_ifs with hb
  · rw [Inv_mk_iff]
    refine ⟨?_, ?_, hmax, hstep, hdl⟩ <;>
      rw [sub64_eq_of_le _ _ (by omega) (by omega)] <;> omega
  · have h1 : sub64 e.par.step (e.currValue - e.par.minValue) =
        e.par.step - (e.currValue - e.par.minValue) := sub64_eq_of_le _ _ (by omega) (by omega)
    have h2 : sub64 (e.par.step - (e.currValue - e.par.minValue)) 1 =
        e.par.step - (e.currValue - e.par.minValue) - 1 := sub64_eq_of_le _ _ (by omega) (by omega)
    rw [Inv_mk_iff]
    refine ⟨?_, ?_, hmax, hstep, hdl⟩ <;>
      rw [h1, h2, sub64_eq_of_le _ _ (by omega) (by omega)] <;> omega

theorem RandValue_inv (e : UIntEngine) (g : Nat) (h : Inv e) : Inv (RandValue e g) := by
  obtain ⟨hmin, hmaxc, hmax, hstep, hdl⟩ := h
  have hU := U64_eq
  have hminmax : e.par.minValue ≤ e.par.maxValue := le_trans hmin hmaxc
  have hds := dSpec_facts e.par.minValue e.par.maxValue hminmax hmax
  rw [← hdl] at hds
  have hmod : g % e.domainLen < e.domainLen := Nat.mod_lt _ (by omega)
  simp only [RandValue]
  rw [Inv_mk_iff]
  refine ⟨?_, ?_, hmax, hstep, hdl⟩ <;>
    rw [add64_eq_of_lt _ _ (by omega)] <;> omega

theorem PerformOp_inv (e : UIntEngine) (g : Nat) (e2 : UIntEngine)
    (h : Inv e) (hp : PerformOp e g = Except.ok e2) :
    Inv e2 ∧ e2.par = e.par ∧ e2.domainLen = e.domainLen := by
  unfold PerformOp at hp
  split_ifs at hp <;> simp only [Except.ok.injEq] at hp <;> subst hp
  · exact ⟨IncValue_inv e h, (IncValue_par e).1, (IncValue_par e).2⟩
  · exact ⟨DecValue_inv e h, (DecValue_par e).1, (DecValue_par e).2⟩
  · exact ⟨RandValue_inv e g h, rfl, rfl⟩

theorem Update_inv (e : UIntEngine) (g : Nat) (b : List Nat) (h : Inv e) :
    Inv (e.Update g b).engine ∧ (e.Update g b).engine.par = e.par := by
  unfold UIntEngine.Update
  split_ifs with h1 h2
  · exact ⟨h, rfl⟩
  · cases hp : PerformOp e g with
    | error er => exact ⟨h, rfl⟩
    | ok e2 =>
      obtain ⟨hi, hpar, -⟩ := PerformOp_inv e g e2 h hp
      exact ⟨hi, hpar⟩
  · exact ⟨h, rfl⟩

theorem foldl_Update_inv (calls : List (Nat × List Nat)) (e : UIntEngine) (h : Inv e) :
    Inv (calls.foldl (fun acc c => (acc.Update c.1 c.2).engine) e) ∧
    (calls.foldl (fun acc c => (acc.Update c.1 c.2).engine) e).par = e.par := by
  induction calls generalizing e with
  | nil => exact ⟨h, rfl⟩
  | cons c cs ih =>
    simp only [List.foldl_cons]
    obtain ⟨h1, h2⟩ := Update_inv e c.1 c.2 h
    obtain ⟨h3, h4⟩ := ih _ h1
    exact ⟨h3, by rw [h4, h2]⟩

instance {ε α : Type} [DecidableEq ε] [DecidableEq α] : DecidableEq (Except ε α) := fun a b =>
  match a, b with
  | Except.error e1, Except.error e2 =>
    if h : e1 = e2 then isTrue (by rw [h]) else isFalse (fun hc => by cases hc; exact h rfl)
  | Except.error _, Except.ok _ => isFalse (fun hc => by cases hc)
  | Except.ok _, Except.error _ => isFalse (fun hc => by cases hc)
  | Except.ok a1, Except.ok a2 =>
    if h : a1 = a2 then isTrue (by rw [h]) else isFalse (fun hc => by cases hc; exact h rfl)

/-!  Claim theorems. -/

/-- C1: for every UIntEngine constructed from a configuration accepted by
validation (minValue ≤ maxValue, byte width in \x7b1,2,4,8\x7d, maxValue
representable in that width, operation in \x7binc, dec, rand\x7d, initValue = 0
or in [minValue, maxValue]), currValue lies in [minValue, maxValue] after
construction and after every sequence of Update calls, for each of the
three operations, for any step value (including 0 and values above the
domain size, which construction reduces modulo domainLength), any random
draws and any buffers. -/
theorem C1_currValue_in_domain (p : UIntEngineParams) (e : UIntEngine)
    (hok : NewUIntEngine p = Except.ok e) (calls : List (Nat × List Nat)) :
    p.minValue ≤ (calls.foldl (fun acc c => (acc.Update c.1 c.2).engine) e).currValue ∧
    (calls.foldl (fun acc c => (acc.Update c.1 c.2).engine) e).currValue ≤ p.maxValue := by
  obtain ⟨hinv, hmn, hmx, -, -, -, -⟩ := NewUIntEngine_ok_inv p e hok
  obtain ⟨hfi, hfp⟩ := foldl_Update_inv calls e hinv
  obtain ⟨a1, a2, -⟩ := hfi
  rw [hfp, hmn] at a1
  rw [hfp, hmx] at a2
  exact ⟨a1, a2⟩

/-- Witness for C1 at a concrete engine (width 2, inc by 3 over [0, 3])
and two concrete Update calls. -/
theorem C1_currValue_in_domain_witness :
    NewUIntEngine ⟨2, 0, "inc", 3, 0, 3, 0⟩ = Except.ok ⟨⟨2, 0, "inc", 3, 0, 3, 0⟩, 0, 4⟩ ∧
    (0 ≤ ([((0 : Nat), [0, 0]), (0, [0, 0])].foldl
        (fun acc c => (acc.Update c.1 c.2).engine)
        (⟨⟨2, 0, "inc", 3, 0, 3, 0⟩, 0, 4⟩ : UIntEngine)).currValue ∧
     ([((0 : Nat), [0, 0]), (0, [0, 0])].foldl
        (fun acc c => (acc.Update c.1 c.2).engine)
        (⟨⟨2, 0, "inc", 3, 0, 3, 0⟩, 0, 4⟩ : UIntEngine)).currValue ≤ 3) :=
  ⟨by decide, C1_currValue_in_domain ⟨2, 0, "inc", 3, 0, 3, 0⟩ _ (by decide) _⟩

/-- C3: for a validly constructed UIntEngine and a buffer shorter than
the configured size, Update returns a SizeError, writes nothing to the
buffer, and leaves the engine state unchanged, so that any subsequent
Update behaves exactly as if the failed call had not happened (in
particular a retry with a long enough buffer writes the value the failed
call would have written). -/
theorem C3_short_buffer_rejected (p : UIntEngineParams) (e : UIntEngine)
    (_hok : NewUIntEngine p = Except.ok e) (g : Nat) (b : List Nat)
    (hshort : b.length < e.par.size) :
    (e.Update g b).err = some (GoErr.sliceShort e.par.size b.length) ∧
    (e.Update g b).engine = e ∧
    (e.Update g b).buf = b ∧
    (∀ g2 b2, ((e.Update g b).engine.Update g2 b2) = e.Update g2 b2) := by
  have hupd : e.Update g b =
      { err := some (GoErr.sliceShort e.par.size b.length), engine := e, buf := b } := by
    unfold UIntEngine.Update
    rw [if_pos hshort]
  rw [hupd]
  exact ⟨rfl, rfl, rfl, fun g2 b2 => rfl⟩

/-- Witness for C3 at a concrete engine and the empty buffer. -/
theorem C3_short_buffer_rejected_witness :
    ((⟨⟨2, 0, "inc", 1, 0, 3, 0⟩, 0, 4⟩ : UIntEngine).Update 0 []).err =
        some (GoErr.sliceShort 2 0) ∧
    ((⟨⟨2, 0, "inc", 1, 0, 3, 0⟩, 0, 4⟩ : UIntEngine).Update 0 []).engine =
        ⟨⟨2, 0, "inc", 1, 0, 3, 0⟩, 0, 4⟩ ∧
    ((⟨⟨2, 0, "inc", 1, 0, 3, 0⟩, 0, 4⟩ : UIntEngine).Update 0 []).buf = [] ∧
    (∀ g2 b2, ((((⟨⟨2, 0, "inc", 1, 0, 3, 0⟩, 0, 4⟩ : UIntEngine).Update 0 []).engine).Update g2 b2) =
        (⟨⟨2, 0, "inc", 1, 0, 3, 0⟩, 0, 4⟩ : UIntEngine).Update g2 b2) :=
  C3_short_buffer_rejected ⟨2, 0, "inc", 1, 0, 3, 0⟩ _ (by decide) 0 [] (by decide)

/-- C6: NewUIntEngine hands back a generator exactly when every
validation condition holds (minValue ≤ maxValue, byte width in
\x7b1,2,4,8\x7d, maxValue representable in the chosen width, operation one of
inc/dec/rand, and initValue = 0 or in [minValue, maxValue]), and fails
with a ConfigError, returning no generator, exactly when at least one is
violated. -/
theorem C6_validation_characterization (p : UIntEngineParams) :
    ((∃ e, NewUIntEngine p = Except.ok e) ↔
      (p.minValue ≤ p.maxValue ∧
       (p.size = 1 ∨ p.size = 2 ∨ p.size = 4 ∨ p.size = 8) ∧
       p.maxValue ≤ maxRep p.size ∧
       (p.op = "inc" ∨ p.op = "dec" ∨ p.op = "rand") ∧
       (p.initValue = 0 ∨ (p.minValue ≤ p.initValue ∧ p.initValue ≤ p.maxValue)))) ∧
    ((∃ er, NewUIntEngine p = Except.error er) ↔
      ¬(p.minValue ≤ p.maxValue ∧
        (p.size = 1 ∨ p.size = 2 ∨ p.size = 4 ∨ p.size = 8) ∧
        p.maxValue ≤ maxRep p.size ∧
        (p.op = "inc" ∨ p.op = "dec" ∨ p.op = "rand") ∧
        (p.initValue = 0 ∨ (p.minValue ≤ p.initValue ∧ p.initValue ≤ p.maxValue)))) := by
  have hok : (∃ e, NewUIntEngine p = Except.ok e) ↔ validateParams p = none := by
    unfold NewUIntEngine
    cases hv : validateParams p <;> simp
  have her : (∃ er, NewUIntEngine p = Except.error er) ↔ validateParams p ≠ none := by
    unfold NewUIntEngine
    cases hv : validateParams p <;> simp
  rw [hok, her, validateParams_none_iff, Ne, validateParams_none_iff]
  exact ⟨Iff.rfl, Iff.rfl⟩

/-- C9: an integer generator with byte width 2, offset 0, operation
increment, step 1, minValue 0, maxValue 3, initValue 0, given five
successive Update calls into a 2-byte buffer, writes in order the
big-endian 2-byte encodings of 0, 1, 2, 3, and 0 again on the fifth
call. -/
theorem C9_inc_trace :
    NewUIntEngine ⟨2, 0, "inc", 1, 0, 3, 0⟩ =
      Except.ok (⟨⟨2, 0, "inc", 1, 0, 3, 0⟩, 0, 4⟩ : UIntEngine) ∧
    (let e0 : UIntEngine := ⟨⟨2, 0, "inc", 1, 0, 3, 0⟩, 0, 4⟩
     let r1 := e0.Update 0 [0, 0]
     let r2 := r1.engine.Update 0 r1.buf
     let r3 := r2.engine.Update 0 r2.buf
     let r4 := r3.engine.Update 0 r3.buf
     let r5 := r4.engine.Update 0 r4.buf
     r1.err = none ∧ r2.err = none ∧ r3.err = none ∧ r4.err = none ∧ r5.err = none ∧
     r1.buf = [0, 0] ∧ r2.buf = [0, 1] ∧ r3.buf = [0, 2] ∧ r4.buf = [0, 3] ∧
     r5.buf = [0, 0]) := by
  decide

/-- The full-width increment engine (minValue 0, maxValue 2^64 - 1, step
2^64 - 1, width 8) in the state NewUIntEngine produces for it. -/
def fullIncE : UIntEngine := ⟨⟨8, 0, "inc", U64 - 1, 0, U64 - 1, 0⟩, 0, U64 - 1⟩

/-- C2 counterexample: on the validly constructed full-width engine with
currValue in the domain and step ≤ domainLen, one increment does not
produce minValue + ((currValue - minValue + step) mod domainLen): the
code stores domainLen = 2^64 - 1 for the full-width domain (whose true
size 2^64 is unrepresentable), so at currValue = 0, step = 2^64 - 1 the
code yields 2^64 - 1 while the modular formula over the stored domainLen
yields 0. -/
theorem C2_counterexample :
    NewUIntEngine ⟨8, 0, "inc", U64 - 1, 0, U64 - 1, 0⟩ = Except.ok fullIncE ∧
    fullIncE.par.minValue ≤ fullIncE.currValue ∧
    fullIncE.currValue ≤ fullIncE.par.maxValue ∧
    fullIncE.par.step ≤ fullIncE.domainLen ∧
    (IncValue fullIncE).currValue ≠
      fullIncE.par.minValue +
        ((fullIncE.currValue - fullIncE.par.minValue + fullIncE.par.step) %
          fullIncE.domainLen) := by
  refine ⟨rfl, ?_, ?_, ?_, ?_⟩ <;> decide

/-- C2 amended: for every UIntEngine state with minValue ≤ currValue ≤
maxValue, maxValue < 2^64 and step ≤ maxValue - minValue + 1, one
increment sets currValue to currValue + step when step ≤ maxValue -
currValue and otherwise to minValue + (step - (maxValue - currValue) -
1), which equals minValue + ((currValue - minValue + step) mod (maxValue
- minValue + 1)) with the exact domain size (not the engine's stored
domainLen, which differs in the full-width case) as the modulus; no
intermediate computation leaves the 64-bit width. -/
theorem C2_inc_formula (e : UIntEngine)
    (h1 : e.par.minValue ≤ e.currValue) (h2 : e.currValue ≤ e.par.maxValue)
    (hmax : e.par.maxValue < U64) (hstep64 : e.par.step < U64)
    (hstep : e.par.step ≤ e.par.maxValue - e.par.minValue + 1) :
    ((e.par.step ≤ e.par.maxValue - e.currValue →
        (IncValue e).currValue = e.currValue + e.par.step) ∧
     (e.par.maxValue - e.currValue < e.par.step →
        (IncValue e).currValue =
          e.par.minValue + (e.par.step - (e.par.maxValue - e.currValue) - 1))) ∧
    (IncValue e).currValue =
      e.par.minValue + ((e.currValue - e.par.minValue + e.par.step) %
        (e.par.maxValue - e.par.minValue + 1)) := by
  have hU := U64_eq
  have hleft : sub64 e.par.maxValue e.currValue = e.par.maxValue - e.currValue :=
    sub64_eq_of_le _ _ h2 hmax
  by_cases hb : e.par.step ≤ e.par.maxValue - e.currValue
  · have hcv : (IncValue e).currValue = e.currValue + e.par.step := by
      simp only [IncValue]
      rw [hleft, if_pos hb]
      exact add64_eq_of_lt _ _ (by omega)
    refine ⟨⟨fun _ => hcv, fun hc => absurd hb (by omega)⟩, ?_⟩
    rw [hcv, Nat.mod_eq_of_lt (by omega)]
    omega
  · have hcv : (IncValue e).currValue =
        e.par.minValue + (e.par.step - (e.par.maxValue - e.currValue) - 1) := by
      simp only [IncValue]
      rw [hleft, if_neg hb]
      rw [sub64_eq_of_le e.par.step (e.par.maxValue - e.currValue) (by omega) (by omega)]
      rw [sub64_eq_of_le (e.par.step - (e.par.maxValue - e.currValue)) 1 (by omega) (by omega)]
      exact add64_eq_of_lt _ _ (by omega)
    refine ⟨⟨fun hc => absurd hc hb, fun _ => hcv⟩, ?_⟩
    have hm : (e.currValue - e.par.minValue + e.par.step) %
        (e.par.maxValue - e.par.minValue + 1) =
        e.currValue - e.par.minValue + e.par.step -
          (e.par.maxValue - e.par.minValue + 1) := by
      rw [Nat.mod_eq_sub_mod (by omega), Nat.mod_eq_of_lt (by omega)]
    rw [hcv, hm]
    omega

/-- Witness for C2 amended: the width-2 engine over [0, 3] at
currValue 3 with step 1 wraps back to 0, matching the modular formula. -/
theorem C2_inc_formula_witness :
    (((1 : Nat) ≤ 3 - 3 →
        (IncValue ⟨⟨2, 0, "inc", 1, 0, 3, 0⟩, 3, 4⟩).currValue = 3 + 1) ∧
     ((3 : Nat) - 3 < 1 →
        (IncValue ⟨⟨2, 0, "inc", 1, 0, 3, 0⟩, 3, 4⟩).currValue = 0 + (1 - (3 - 3) - 1))) ∧
    (IncValue (⟨⟨2, 0, "inc", 1, 0, 3, 0⟩, 3, 4⟩ : UIntEngine)).currValue =
      0 + ((3 - 0 + 1) % (3 - 0 + 1)) :=
  C2_inc_formula ⟨⟨2, 0, "inc", 1, 0, 3, 0⟩, 3, 4⟩ (by decide) (by decide)
    (by decide) (by decide) (by decide)

/-- The full-width uniform-random engine (minValue 0, maxValue 2^64 - 1,
width 8) in the state NewUIntEngine produces for it. -/
def fullRandE : UIntEngine := ⟨⟨8, 0, "rand", 0, 0, U64 - 1, 0⟩, 0, U64 - 1⟩

/-- C4 counterexample: for the validly constructed full-width
uniform-random engine (minValue = 0, maxValue = 2^64 - 1) it is not the
case that every value of the domain is produced by some full-width draw:
the written value is minValue + (draw mod domainLen) with domainLen =
2^64 - 1, which can never equal maxValue = 2^64 - 1, so the generation
does not cover the entire domain. -/
theorem C4_counterexample :
    NewUIntEngine ⟨8, 0, "rand", 0, 0, U64 - 1, 0⟩ = Except.ok fullRandE ∧
    ¬ (∀ v : Nat, fullRandE.par.minValue ≤ v → v ≤ fullRandE.par.maxValue →
        ∃ g : Nat, g < U64 ∧ (RandValue fullRandE g).currValue = v) := by
  have hU := U64_eq
  refine ⟨rfl, fun hall => ?_⟩
  obtain ⟨g, hg, hv⟩ := hall (U64 - 1) (Nat.zero_le _) (le_refl _)
  have h1 : g % (U64 - 1) < U64 - 1 := Nat.mod_lt _ (by omega)
  have h2 : (RandValue fullRandE g).currValue = g % (U64 - 1) := by
    show add64 0 (g % (U64 - 1)) = g % (U64 - 1)
    unfold add64
    rw [Nat.zero_add]
    exact Nat.mod_eq_of_lt (by omega)
  rw [h2] at hv
  omega

/-- C4 amended: for every validly constructed uniform-random engine
whose domain is not the full 64-bit range, every v in [minValue,
maxValue] (including maxValue) is produced by some full-width draw: the
written value is minValue plus the draw reduced modulo domainLength.
(In the excluded full-width case minValue = 0, maxValue = 2^64 - 1 the
value maxValue is never produced.) -/
theorem C4_rand_coverage (p : UIntEngineParams) (e : UIntEngine)
    (hok : NewUIntEngine p = Except.ok e)
    (hnotfull : ¬ (p.minValue = 0 ∧ p.maxValue = U64 - 1))
    (v : Nat) (h1 : p.minValue ≤ v) (h2 : v ≤ p.maxValue) :
    ∃ g : Nat, g < U64 ∧ (RandValue e g).currValue = v := by
  have hU := U64_eq
  obtain ⟨⟨-, -, hmax, -, hdl⟩, hmn, hmx, -, -, -, -⟩ := NewUIntEngine_ok_inv p e hok
  rw [hmx] at hmax
  have hdv : e.domainLen = p.maxValue - p.minValue + 1 := by
    rw [hdl, hmn, hmx]
    unfold dSpec
    rw [if_neg hnotfull]
  refine ⟨v - p.minValue, by omega, ?_⟩
  show add64 e.par.minValue ((v - p.minValue) % e.domainLen) = v
  rw [hdv, hmn, Nat.mod_eq_of_lt (by omega), add64_eq_of_lt _ _ (by omega)]
  omega

/-- Witness for C4 amended: the rand engine over [5, 10] produces 7 for
some draw. -/
theorem C4_rand_coverage_witness :
    ∃ g : Nat, g < U64 ∧
      (RandValue (⟨⟨4, 0, "rand", 0, 5, 10, 0⟩, 5, 6⟩ : UIntEngine) g).currValue = 7 :=
  C4_rand_coverage ⟨4, 0, "rand", 0, 5, 10, 0⟩ ⟨⟨4, 0, "rand", 0, 5, 10, 0⟩, 5, 6⟩
    rfl (by decide) 7 (by decide) (by decide)

/-- A one-entry histogram engine whose single entry is a uint32 range
with max 3 smaller than min 5, so its value() deterministically fails. -/
def c5eng : HistogramEngine :=
  ⟨⟨4, 0, [HistogramEntry.uint32Range 5 3 1]⟩,
   buildDistributionSlice [HistogramEntry.uint32Range 5 3 1]⟩

/-- C5 counterexample: for a destination buffer shorter than size() and
a sampled entry whose value() fails, HistogramEngine.Update returns the
SizeError for the buffer, not the propagated entry failure: the code
checks the destination buffer length before sampling or calling any
entry, contrary to the spec's step ordering. -/
theorem C5_counterexample :
    (c5eng.Update 0 0 []).1 = Outcome.error (GoErr.sliceShort 4 0) ∧
    c5eng.par.entries.get? 0 = some (HistogramEntry.uint32Range 5 3 1) ∧
    (HistogramEntry.uint32Range 5 3 1).GetValue 0 =
      Outcome.error (GoErr.rangeMaxLtMin 3 5) ∧
    (c5eng.Update 0 0 []).1 ≠ Outcome.error (GoErr.rangeMaxLtMin 3 5) := by
  refine ⟨?_, ?_, ?_, ?_⟩ <;> decide

/-- C5 amended: HistogramEngine.Update checks the destination buffer
first: when the buffer is shorter than size() it returns SizeError
without consulting the sampled entry; only when the buffer is long
enough does it call the sampled entry's value() and propagate an
entry-level failure as the returned error. -/
theorem C5_buffer_check_first (o : HistogramEngine) (i draw : Nat) (b : List Nat) :
    (b.length < o.par.size →
      (o.Update i draw b).1 = Outcome.error (GoErr.sliceShort o.par.size b.length)) ∧
    (o.par.size ≤ b.length →
      ∀ ent er, o.par.entries.get? i = some ent →
        ent.GetValue draw = Outcome.error er →
        (o.Update i draw b).1 = Outcome.error er) := by
  constructor
  · intro h
    simp only [HistogramEngine.Update]
    rw [if_pos h]
  · intro h ent er hent herr
    have hlt : ¬ b.length < o.par.size := Nat.not_lt.mpr h
    simp only [HistogramEngine.Update]
    rw [if_neg hlt, hent]
    simp only [herr]

/-- Witness for C5 amended: on the concrete failing-range engine the
short-buffer call returns the SizeError and the long-buffer call returns
the entry's range error. -/
theorem C5_buffer_check_first_witness :
    (c5eng.Update 0 0 []).1 = Outcome.error (GoErr.sliceShort 4 0) ∧
    (c5eng.Update 0 0 [0, 0, 0, 0]).1 = Outcome.error (GoErr.rangeMaxLtMin 3 5) :=
  ⟨(C5_buffer_check_first c5eng 0 0 []).1 (by decide),
   (C5_buffer_check_first c5eng 0 0 [0, 0, 0, 0]).2 (by decide)
     (HistogramEntry.uint32Range 5 3 1) (GoErr.rangeMaxLtMin 3 5) (by decide) (by decide)⟩

/-- C7: at minValue = 0, maxValue = 2^32 - 1 (a configuration the claim
covers, since max ≥ min) the range entry's value() does not return a
value in [min, max]: the uint32 computation max - min + 1 wraps to 0 and
the modulo operation aborts with a division-by-zero panic, for every
random draw. -/
theorem C7_full_range_divide_by_zero (draw : Nat) :
    uint32RangeGetValue 0 (U32 - 1) draw = Outcome.panicked PanicKind.divideByZero := by
  have hc1 : ¬ ((U32 - 1 : Nat) < 0) := by omega
  have hc2 : ((U32 - 1 : Nat) - 0 + 1) % U32 = 0 := by
    rw [U32_eq]
  simp only [uint32RangeGetValue]
  rw [if_neg hc1, if_pos hc2]

/-- C8 counterexample: the fixed-codepoint entry can carry the UTF-16
surrogate 0xD800 = 55296, for which utf8.RuneLen is -1, so value()
aborts in make([]byte, -1) instead of returning the encoding without
failure. -/
theorem C8_counterexample :
    runeGetValue 55296 = Outcome.panicked PanicKind.makesliceNeg := by decide

/-- C8 amended: for every codepoint the entry may carry that UTF-8 can
encode (nonnegative RuneLen: a Unicode scalar value, excluding
surrogates and values above 0x10FFFF), value() never fails: it returns,
without error and without aborting, the variable-length UTF-8 encoding
of the constant codepoint, whose length is exactly RuneLen; for the
remaining rune values the allocation panics. -/
theorem C8_encodable_rune_ok (r : Int) (h : 0 ≤ runeLen r) :
    runeGetValue r = Outcome.ok (utf8Encode r.toNat) ∧
    (utf8Encode r.toNat).length = (runeLen r).toNat := by
  constructor
  · unfold runeGetValue
    rw [if_neg (by omega)]
  · unfold utf8Encode
    unfold runeLen at h ⊢
    split_ifs at h ⊢ <;> simp_all

/-- Witness for C8 amended at the three-byte codepoint 20013. -/
theorem C8_encodable_rune_ok_witness :
    runeGetValue 20013 = Outcome.ok (utf8Encode (Int.toNat 20013)) ∧
    (utf8Encode (Int.toNat 20013)).length = (runeLen 20013).toNat :=
  C8_encodable_rune_ok 20013 (by decide)

/-- C10: whenever HistogramEngine.Update returns an error — destination
buffer shorter than size(), entry value() failure, or entry output
shorter than size() — no byte of the destination buffer has been
modified: the copy happens only after every check has passed. -/
theorem C10_error_leaves_buffer (o : HistogramEngine) (i draw : Nat) (b : List Nat)
    (er : GoErr) (h : (o.Update i draw b).1 = Outcome.error er) :
    (o.Update i draw b).2 = b := by
  simp only [HistogramEngine.Update] at h ⊢
  by_cases h1 : b.length < o.par.size
  · rw [if_pos h1]
  · rw [if_neg h1] at h ⊢
    cases hent : o.par.entries.get? i with
    | none => simp only [hent]
    | some ent =>
      simp only [hent] at h ⊢
      cases hval : ent.GetValue draw with
      | error e2 => simp only [hval]
      | panicked pk => simp only [hval]
      | ok nvb =>
        simp only [hval] at h ⊢
        by_cases h2 : nvb.length < o.par.size
        · rw [if_pos h2]
        · rw [if_neg h2] at h ⊢
          have h3 : ¬ (min (min o.par.size b.length) (min o.par.size nvb.length) ≠
              o.par.size) := by omega
          rw [if_neg h3] at h
          exact absurd h (by simp)

/-- Witness for C10: a failed call on a concrete two-byte buffer leaves
the buffer unchanged. -/
theorem C10_error_leaves_buffer_witness :
    ((⟨⟨4, 0, [HistogramEntry.uint32Fixed 7 1]⟩, [1]⟩ : HistogramEngine).Update
      0 0 [9, 9]).2 = [9, 9] :=
  C10_error_leaves_buffer ⟨⟨4, 0, [HistogramEntry.uint32Fixed 7 1]⟩, [1]⟩ 0 0 [9, 9]
    (GoErr.sliceShort 4 2) (by decide)

end Netflow
